import Mathlib

/-!
Verification development for the two components of this repository:

* `src/evm/src/trace/identifier.rs` — the local trace identifier
  (`LocalTraceIdentifier`, `identify_address`), which matches observed
  runtime bytecode against a registry of locally compiled artifacts.
* `src/cli/src/cmd/forge/script/broadcast.rs` — the broadcaster
  (`send_transactions`, `send_transaction`, `wait_for_receipts`), which
  submits previously simulated transactions and records their receipts.

Modelling conventions:

* Byte strings (`Vec<u8>`) are `List Nat`; addresses and nonces are `Nat`;
  ABIs are opaque and modelled as `Nat`; contract names are `String`.
* The similarity score `foundry_utils::diff_score` and the nonce query
  `foundry_utils::next_nonce` live outside `src/`; the score is modelled
  from the spec below and the nonce query is part of the network oracle.
* Network I/O (chain queries, sending, receipt polling) is abstracted into
  a deterministic oracle `Network`.  Chain-id resolution, the legacy/EIP-1559
  envelope choice, signing, persistence and printing are out-of-scope
  collaborators per the spec and do not influence any of the claims; they
  are therefore not part of the state the model tracks.
* The async structure is made explicit through an event trace: a `submit`
  event is the send call, an `awaitReceipt` event is the completion of the
  receipt future, and an `appendReceipt` event is a push onto the record.
  Rust futures are lazy, so in the non-waiting branch of the loop nothing
  runs until `join_all` polls the collected futures; `join_all` is modelled
  with its canonical schedule: every future is polled (issuing its send)
  before any receipt completion is observed.
-/

/-! ## Definitions: the shallow embedding and its observables -/

/-- Modelled from the spec: `diff_score` is provided by the external
`foundry_utils` crate, whose source is not part of `src/`.  The spec
describes it as a normalized edit-distance-style dissimilarity score in the
closed range `[0, 1]`, `0` for identical bytecode and `1` for maximally
different, length- and content-weighted.  We model it as the fraction of
differing byte positions over the common-length prefix, with the score `1`
when either input is empty. -/
def diff_score (b1 b2 : List Nat) : ℚ :=
  let cutoff := min b1.length b2.length
  if cutoff = 0 then 1
  else (((b1.take cutoff).zip (b2.take cutoff)).countP (fun p => p.1 ≠ p.2) : ℚ) / cutoff

/-- Strict lexicographic byte-string order, the iteration order of a Rust
`BTreeMap<Vec<u8>, _>` (`Ord` on `Vec<u8>` is lexicographic). -/
def lexLt : List Nat → List Nat → Bool
  | [], [] => false
  | [], _ :: _ => true
  | _ :: _, [] => false
  | a :: as_, b :: bs => a < b || (a == b && lexLt as_ bs)

/-- Insertion into a key-sorted association list, replacing the value on an
equal key: the behaviour of `BTreeMap::insert` (later inserts overwrite). -/
def btInsert (k : List Nat) (v : String × Nat) :
    List (List Nat × String × Nat) → List (List Nat × String × Nat)
  | [] => [(k, v)]
  | (k', v') :: rest =>
    if lexLt k k' then (k, v) :: (k', v') :: rest
    else if k = k' then (k, v) :: rest
    else (k', v') :: btInsert k v rest

/-- An artifact identifier; only its `name` is read by the code under
verification. -/
structure ArtifactId where
  name : String
deriving DecidableEq

/-- Embedding of `LocalTraceIdentifier::new`: iterate the input map of known
contracts (a `BTreeMap<ArtifactId, (Abi, Vec<u8>)>`, modelled as its
iteration sequence) and collect `(runtime_code, (name, abi))` pairs into a
`BTreeMap<Vec<u8>, (String, Abi)>`, modelled as a `lexLt`-sorted
association list built by `btInsert`. -/
def LocalTraceIdentifier.new (known : List (ArtifactId × Nat × List Nat)) :
    List (List Nat × String × Nat) :=
  known.foldl (fun m e => btInsert e.2.2 (e.1.name, e.2.1) m) []

/-- Embedding of `LocalTraceIdentifier::identify_address`: if bytecode is
supplied, scan `local_contracts` in iteration (key-ascending) order for the
first entry whose `diff_score` against the observed code is strictly below
`0.1`, returning its name as contract and label plus its ABI; otherwise
return the fully absent triple.  The address argument is ignored by the
source (`_`). -/
def identify_address (local_contracts : List (List Nat × String × Nat))
    (_address : Nat) (code : Option (List Nat)) :
    Option String × Option String × Option Nat :=
  match code with
  | some c =>
    match local_contracts.find? (fun e => decide (diff_score e.1 c < 1/10)) with
    | some e => (some e.2.1, some e.2.1, some e.2.2)
    | none => (none, none, none)
  | none => (none, none, none)

/-- A receipt is opaque network data; modelled as a token. -/
abbrev Receipt := Nat

/-- A pending transaction: the fields the broadcaster reads.  The source's
`tx.from()` and `tx.nonce()` are `Option`s unwrapped with `expect`; the
claims only concern transactions where both are present, so the model
carries them directly. -/
structure Tx where
  sender : Nat
  nonce : Nat
deriving DecidableEq, Repr

/-- The deterministic network oracle standing for the out-of-scope
collaborators: `foundry_utils::next_nonce` (a nonce query that can fail) and
the send-then-await-receipt round trip of the inner `broadcast` function
(`Ok (some r)`: receipt obtained, `Ok none`: accepted but receiptless,
`Error e`: the send itself failed). -/
structure Network where
  nextNonce : Nat → Except Unit Nat
  broadcastTx : Tx → Except String (Option Receipt)

/-- The fatal error kinds of the broadcaster, carrying the data the source
interpolates into its `eyre::bail!` message strings. -/
inductive BroadcastError where
  | noSigner
  | unknownSender (addr : Nat) (available : List Nat) (hint : Bool)
  | nonceDrift
  | nonceQueryFailed
  | receiptMissing
  | broadcastFailed (msg : String)
deriving DecidableEq, Repr

deriving instance DecidableEq for Except

/-- Events of a run, labelled by the transaction's absolute index in the
declared sequence: `submit i` is the send call for transaction `i`,
`awaitReceipt i` is the completion of its receipt future, and
`appendReceipt i` is the push of its receipt onto the record. -/
inductive Ev where
  | submit (i : Nat)
  | awaitReceipt (i : Nat)
  | appendReceipt (i : Nat)
deriving DecidableEq, Repr

/-- The deployment record (`ScriptSequence`): the declared transactions next
to the receipts appended so far. -/
structure ScriptSequence where
  transactions : List Tx
  receipts : List Receipt
deriving DecidableEq, Repr

/-- Foundry's `Config::DEFAULT_SENDER` constant (defined outside `src/`),
the well-known placeholder sender address. -/
def DEFAULT_SENDER : Nat := 0x00a329c0648769A73afAc7F9381E08FB43dBEA72

/-- The pre-send nonce check of `send_transaction` (executed only when
`wait` holds): query the sender's on-chain nonce and fail with the
nonce-drift error when it differs from the transaction's carried nonce, or
with a query error when the query itself fails. -/
def checkNonce (net : Network) (tx : Tx) : Except BroadcastError Unit :=
  match net.nextNonce tx.sender with
  | .ok nonce => if nonce ≠ tx.nonce then .error .nonceDrift else .ok ()
  | .error _ => .error .nonceQueryFailed

/-- Embedding of `ScriptArgs::send_transaction`: optionally check the nonce
(when `wait`), then send and await the receipt, returning the receipt paired
with the nonce at submission time.  The legacy/EIP-1559 envelope and
chain-id stamping do not affect the modelled observables. -/
def send_transaction (net : Network) (tx : Tx) (wait : Bool) :
    Except BroadcastError (Receipt × Nat) :=
  match (if wait then checkNonce net tx else .ok ()) with
  | .error e => .error e
  | .ok _ =>
    match net.broadcastTx tx with
    | .ok (some r) => .ok (r, tx.nonce)
    | .ok none => .error .receiptMissing
    | .error e => .error (.broadcastFailed e)

/-- The events produced by one full execution of a `send_transaction`
future labelled `i`: nothing if the nonce check fails (no send occurs), a
send plus an await if a pending handle was obtained, and only the send if
the send itself failed. -/
def sendEvs (net : Network) (i : Nat) (tx : Tx) (wait : Bool) : List Ev :=
  match (if wait then checkNonce net tx else .ok ()) with
  | .error _ => []
  | .ok _ =>
    match net.broadcastTx tx with
    | .ok _ => [.submit i, .awaitReceipt i]
    | .error _ => [.submit i]

/-- Wallet lookup for one transaction, the body of the lazy `map` building
`sequence`: find a loaded wallet whose address equals the declared `from`;
otherwise produce the unknown-sender error carrying the unmatched address,
the list of available wallet addresses, and whether the default-sender hint
is appended. -/
def resolvePayload (wallets : List Nat) (tx : Tx) : Except BroadcastError Tx :=
  if wallets.any (· == tx.sender) then .ok tx
  else .error (.unknownSender tx.sender wallets (tx.sender == DEFAULT_SENDER))

/-- Pair each list element with its absolute index, starting at `offset`. -/
def withIdx (offset : Nat) : List Tx → List (Nat × Tx)
  | [] => []
  | tx :: rest => (offset, tx) :: withIdx (offset + 1) rest

/-- Stable insertion by the nonce component (the third), placing the new
element after all existing elements with a smaller or equal nonce. -/
def insertByNonce (x : Nat × Receipt × Nat) :
    List (Nat × Receipt × Nat) → List (Nat × Receipt × Nat)
  | [] => [x]
  | y :: ys => if y.2.2 ≤ x.2.2 then y :: insertByNonce x ys else x :: y :: ys

/-- Embedding of `receipts.sort_by(|a, b| a.1.cmp(&b.1))`: a stable sort of
the collected entries by their nonce component (Rust's `sort_by` is stable;
stable insertion sort is extensionally the same function). -/
def sortByNonce (l : List (Nat × Receipt × Nat)) : List (Nat × Receipt × Nat) :=
  l.foldl (fun acc x => insertByNonce x acc) []

/-- The scan over `join_all`'s results in `wait_for_receipts`: push `Ok`
values until the first `Err`, then stop, remembering that error. -/
def collectOks : List (Nat × Except BroadcastError (Receipt × Nat)) →
    List (Nat × Receipt × Nat) × Option BroadcastError
  | [] => ([], none)
  | (i, .ok v) :: rest =>
    let (oks, err) := collectOks rest
    ((i, v.1, v.2) :: oks, err)
  | (_, .error e) :: _ => ([], some e)

/-- The event schedule of `join_all` over the collected lazy futures: every
future is polled, issuing its send, before any receipt completion is
observed; a future whose send fails never reaches the await point.  The
futures were collected with `wait = false`, so no nonce check occurs. -/
def joinAllEvs (net : Network) (pending : List (Nat × Tx)) : List Ev :=
  pending.map (fun p => Ev.submit p.1) ++
    pending.filterMap (fun p =>
      match net.broadcastTx p.2 with
      | .ok _ => some (Ev.awaitReceipt p.1)
      | .error _ => none)

/-- Embedding of `ScriptArgs::wait_for_receipts`: await all collected
submissions (`join_all`), gather successful results up to the first error,
sort them by nonce, append the sorted receipts to the record, and finally
return the first error if there was one. -/
def wait_for_receipts (net : Network) (pending : List (Nat × Tx))
    (seq : ScriptSequence) :
    Except BroadcastError Unit × ScriptSequence × List Ev :=
  let res := pending.map (fun p => (p.1, send_transaction net p.2 false))
  let (oks, err) := collectOks res
  let sorted := sortByNonce oks
  (match err with | some e => .error e | none => .ok (),
   { seq with receipts := seq.receipts ++ sorted.map (fun x => x.2.1) },
   joinAllEvs net pending ++ sorted.map (fun x => Ev.appendReceipt x.1))

/-- The main loop of `send_transactions` over the indexed remaining
transactions.  Each step resolves the wallet (bailing with the resolution
error when none matches).  When `wait` holds the transaction is sent and its
receipt awaited and appended immediately; any send error aborts the loop.
When `wait` fails the lazy future is pushed onto `pending` unpolled and
nothing is sent yet. -/
def bLoop (net : Network) (wait : Bool) (wallets : List Nat) :
    List (Nat × Tx) → ScriptSequence → List (Nat × Tx) → List Ev →
    Except BroadcastError Unit × ScriptSequence × List (Nat × Tx) × List Ev
  | [], seq, pending, evs => (.ok (), seq, pending, evs)
  | (i, tx) :: rest, seq, pending, evs =>
    match resolvePayload wallets tx with
    | .error e => (.error e, seq, pending, evs)
    | .ok tx =>
      if wait then
        match send_transaction net tx true with
        | .ok (r, _n) =>
          bLoop net wait wallets rest
            { seq with receipts := seq.receipts ++ [r] } pending
            (evs ++ sendEvs net i tx true ++ [.appendReceipt i])
        | .error e => (.error e, seq, pending, evs ++ sendEvs net i tx true)
      else
        bLoop net wait wallets rest seq (pending ++ [(i, tx)]) evs

/-- Embedding of `ScriptArgs::send_transactions`: require a signer, set
`wait` exactly when more than one wallet is loaded, skip the transactions
already covered by existing receipts, run the loop, and (unless the loop
bailed, which drops the collected futures unpolled) hand the collected
futures to `wait_for_receipts`.  The result is the run outcome, the final
record, and the event trace. -/
def send_transactions (net : Network) (wallets : List Nat)
    (seq : ScriptSequence) :
    Except BroadcastError Unit × ScriptSequence × List Ev :=
  if wallets.isEmpty then (.error .noSigner, seq, [])
  else
    let wait := wallets.length > 1
    let remaining := seq.transactions.drop seq.receipts.length
    match bLoop net wait wallets (withIdx seq.receipts.length remaining) seq [] [] with
    | (.error e, seq', _pending, evs) => (.error e, seq', evs)
    | (.ok _, seq', pending, evs) =>
      let (res, seq'', evs') := wait_for_receipts net pending seq'
      (res, seq'', evs ++ evs')

/-- A registry entry whose bytecode is all zeroes over twenty bytes. -/
def codeAllZero : List Nat := List.replicate 20 0

/-- A bytecode differing from `codeAllZero` only in its final byte. -/
def codeTailOne : List Nat := List.replicate 19 0 ++ [1]

/-- A bytecode far (score `19/20`) from `codeTailOne`. -/
def codeAllOne : List Nat := List.replicate 20 1

/-- A two-entry registry in `BTreeMap` iteration order (`codeAllZero` is
lexicographically below `codeTailOne`): entry "A" scores `1/20` against the
observed code `codeTailOne` while entry "B" scores `0` (an exact match). -/
def regAB : List (List Nat × String × Nat) :=
  [(codeAllZero, "A", 0), (codeTailOne, "B", 1)]

/-- The indices of the submit events of a trace, in order. -/
def submitsOf (evs : List Ev) : List Nat :=
  evs.filterMap (fun e => match e with | .submit i => some i | _ => none)

/-- One step of the sequentiality counter: the pair tracks how many submits
are not yet awaited and how many are not yet appended. -/
def evStep : Nat × Nat → Ev → Nat × Nat
  | (_, _), .submit _ => (1, 1)
  | (sa, sp), .awaitReceipt _ => (sa - 1, sp)
  | (sa, sp), .appendReceipt _ => (sa, sp - 1)

/-- The counter state after a trace. -/
def stateAfter (evs : List Ev) (st : Nat × Nat) : Nat × Nat :=
  evs.foldl evStep st

/-- The sequentiality check: a submit may only occur when no submission is
outstanding, i.e. when the previous submission's receipt has been both
awaited and appended. -/
def seqFrom : List Ev → Nat × Nat → Bool
  | [], _ => true
  | .submit _ :: rest, (sa, sp) => sa == 0 && sp == 0 && seqFrom rest (1, 1)
  | .awaitReceipt _ :: rest, (sa, sp) => seqFrom rest (sa - 1, sp)
  | .appendReceipt _ :: rest, (sa, sp) => seqFrom rest (sa, sp - 1)

/-- A trace is strictly sequential when every transaction's receipt is
awaited and appended before the next transaction is submitted. -/
def StrictlySequential (evs : List Ev) : Prop := seqFrom evs (0, 0) = true

/-- The first error in a list of completed submission outcomes, in task
order. -/
def firstError : List (Nat × Except BroadcastError (Receipt × Nat)) →
    Option BroadcastError
  | [] => none
  | (_, .ok _) :: rest => firstError rest
  | (_, .error e) :: _ => some e

/-- Pair a receipt function with the transaction's nonce, the shape of a
successful submission outcome. -/
def rcptNonce (rcpt : Tx → Receipt) (p : Nat × Tx) : Receipt × Nat :=
  (rcpt p.2, p.2.nonce)

/-- A network oracle that answers every nonce query with `0` and yields the
receipt `100 + nonce` for every sent transaction. -/
def netPlain : Network :=
  { nextNonce := fun _ => .ok 0,
    broadcastTx := fun t => .ok (some (100 + t.nonce)) }

/-- A network oracle whose nonce answers match the fixture transactions
(`5` for address `1`, `3` for everyone else) and which yields the receipt
`100 + nonce`. -/
def netMatch : Network :=
  { nextNonce := fun a => .ok (if a = 1 then 5 else 3),
    broadcastTx := fun t => .ok (some (100 + t.nonce)) }

/-- A network oracle answering every nonce query with `9`. -/
def netDrift : Network :=
  { nextNonce := fun _ => .ok 9,
    broadcastTx := fun t => .ok (some (100 + t.nonce)) }

/-- A transaction from address `1` with nonce `7`. -/
def txN7 : Tx := { sender := 1, nonce := 7 }

/-- A transaction from address `1` with nonce `5`. -/
def txN5 : Tx := { sender := 1, nonce := 5 }

/-- A transaction from address `2` with nonce `3`. -/
def txS2N3 : Tx := { sender := 2, nonce := 3 }

/-! ## Lemmas and claim theorems -/

theorem lexLt_irrefl (k : List Nat) : lexLt k k = false := by
  induction k with
  | nil => rfl
  | cons a as_ ih => simp [lexLt, ih]

theorem lexLt_total (a b : List Nat) :
    lexLt a b = true ∨ a = b ∨ lexLt b a = true := by
  induction a generalizing b with
  | nil => cases b <;> simp [lexLt]
  | cons x xs ih =>
    cases b with
    | nil => simp [lexLt]
    | cons y ys =>
      rcases Nat.lt_trichotomy x y with h | h | h
      · left; simp [lexLt, h]
      · subst h
        rcases ih ys with h' | h' | h'
        · left; simp [lexLt, h']
        · subst h'; right; left; rfl
        · right; right; simp [lexLt, h']
      · right; right; simp [lexLt, h]

theorem lexLt_trans {a b c : List Nat} (h1 : lexLt a b = true)
    (h2 : lexLt b c = true) : lexLt a c = true := by
  induction a generalizing b c with
  | nil =>
    cases b with
    | nil => simp [lexLt] at h1
    | cons y ys => cases c with
      | nil => simp [lexLt] at h2
      | cons z zs => simp [lexLt]
  | cons x xs ih =>
    cases b with
    | nil => simp [lexLt] at h1
    | cons y ys =>
      cases c with
      | nil => simp [lexLt] at h2
      | cons z zs =>
        simp only [lexLt, Bool.or_eq_true, Bool.and_eq_true, beq_iff_eq,
          decide_eq_true_eq] at h1 h2 ⊢
        rcases h1 with h1 | ⟨h1e, h1r⟩
        · rcases h2 with h2 | ⟨h2e, h2r⟩
          · exact .inl (by omega)
          · subst h2e; exact .inl (by simpa using h1)
        · subst h1e
          rcases h2 with h2 | ⟨h2e, h2r⟩
          · exact .inl h2
          · subst h2e; exact .inr ⟨rfl, ih h1r h2r⟩

theorem lexLt_ne {a b : List Nat} (h : lexLt a b = true) : a ≠ b := by
  intro hab
  subst hab
  simp [lexLt_irrefl] at h

theorem mem_btInsert {k : List Nat} {v : String × Nat}
    {m : List (List Nat × String × Nat)} {x : List Nat × String × Nat}
    (hx : x ∈ btInsert k v m) : x = (k, v) ∨ x ∈ m := by
  induction m with
  | nil => simpa [btInsert] using hx
  | cons e rest ih =>
    obtain ⟨ke, ve⟩ := e
    by_cases h1 : lexLt k ke = true
    · rw [btInsert, if_pos h1] at hx
      rcases List.mem_cons.mp hx with hx | hx
      · exact .inl hx
      · exact .inr hx
    · by_cases h2 : k = ke
      · rw [btInsert, if_neg h1, if_pos h2] at hx
        rcases List.mem_cons.mp hx with hx | hx
        · exact .inl hx
        · exact .inr (List.mem_cons_of_mem _ hx)
      · rw [btInsert, if_neg h1, if_neg h2] at hx
        rcases List.mem_cons.mp hx with hx | hx
        · exact .inr (hx ▸ List.mem_cons_self _ _)
        · rcases ih hx with hx' | hx'
          · exact .inl hx'
          · exact .inr (List.mem_cons_of_mem _ hx')

theorem self_mem_btInsert (k : List Nat) (v : String × Nat)
    (m : List (List Nat × String × Nat)) : (k, v) ∈ btInsert k v m := by
  induction m with
  | nil => simp [btInsert]
  | cons e rest ih =>
    obtain ⟨ke, ve⟩ := e
    by_cases h1 : lexLt k ke = true
    · rw [btInsert, if_pos h1]
      exact List.mem_cons_self _ _
    · by_cases h2 : k = ke
      · rw [btInsert, if_neg h1, if_pos h2]
        exact List.mem_cons_self _ _
      · rw [btInsert, if_neg h1, if_neg h2]
        exact List.mem_cons_of_mem _ ih

theorem mem_btInsert_of_mem {k' : List Nat} {v' : String × Nat}
    (k : List Nat) (v : String × Nat) {m : List (List Nat × String × Nat)}
    (hne : k' ≠ k) (hm : (k', v') ∈ m) : (k', v') ∈ btInsert k v m := by
  induction m with
  | nil => simp at hm
  | cons e rest ih =>
    obtain ⟨ke, ve⟩ := e
    by_cases h1 : lexLt k ke = true
    · rw [btInsert, if_pos h1]
      exact List.mem_cons_of_mem _ hm
    · by_cases h2 : k = ke
      · rw [btInsert, if_neg h1, if_pos h2]
        rcases List.mem_cons.mp hm with he | he
        · exfalso
          have : k' = ke := congrArg Prod.fst he
          exact hne (this.trans h2.symm)
        · exact List.mem_cons_of_mem _ he
      · rw [btInsert, if_neg h1, if_neg h2]
        rcases List.mem_cons.mp hm with he | he
        · exact he ▸ List.mem_cons_self _ _
        · exact List.mem_cons_of_mem _ (ih he)

theorem btInsert_sorted (k : List Nat) (v : String × Nat)
    (m : List (List Nat × String × Nat))
    (hm : m.Pairwise (fun x y => lexLt x.1 y.1 = true)) :
    (btInsert k v m).Pairwise (fun x y => lexLt x.1 y.1 = true) := by
  induction m with
  | nil => simp [btInsert]
  | cons e rest ih =>
    obtain ⟨ke, ve⟩ := e
    rw [List.pairwise_cons] at hm
    obtain ⟨he, hrest⟩ := hm
    by_cases h1 : lexLt k ke = true
    · rw [btInsert, if_pos h1]
      refine List.Pairwise.cons ?_ (List.Pairwise.cons he hrest)
      intro x hx
      rcases List.mem_cons.mp hx with hx | hx
      · exact hx ▸ h1
      · exact lexLt_trans h1 (he x hx)
    · by_cases h2 : k = ke
      · rw [btInsert, if_neg h1, if_pos h2]
        refine List.Pairwise.cons ?_ hrest
        intro x hx
        exact h2 ▸ he x hx
      · rw [btInsert, if_neg h1, if_neg h2]
        have hkek : lexLt ke k = true := by
          rcases lexLt_total k ke with h | h | h
          · exact absurd h h1
          · exact absurd h h2
          · exact h
        refine List.Pairwise.cons ?_ (ih hrest)
        intro x hx
        rcases mem_btInsert hx with hx' | hx'
        · exact hx' ▸ hkek
        · exact he x hx'

theorem new_sorted (known : List (ArtifactId × Nat × List Nat)) :
    (LocalTraceIdentifier.new known).Pairwise
      (fun x y => lexLt x.1 y.1 = true) := by
  rw [LocalTraceIdentifier.new]
  generalize hacc : ([] : List (List Nat × String × Nat)) = acc
  have hsorted : acc.Pairwise (fun x y => lexLt x.1 y.1 = true) := by
    subst hacc; simp
  clear hacc
  induction known generalizing acc with
  | nil => simpa using hsorted
  | cons e rest ih =>
    rw [List.foldl_cons]
    exact ih _ (btInsert_sorted _ _ _ hsorted)

theorem btInsert_keys (k : List Nat) (v : String × Nat)
    (m : List (List Nat × String × Nat)) (k' : List Nat) :
    (∃ v', (k', v') ∈ btInsert k v m) ↔ k' = k ∨ ∃ v', (k', v') ∈ m := by
  constructor
  · rintro ⟨v', hv'⟩
    rcases mem_btInsert hv' with h | h
    · exact .inl (congrArg Prod.fst h)
    · exact .inr ⟨v', h⟩
  · rintro (h | ⟨v', hv'⟩)
    · exact ⟨v, h ▸ self_mem_btInsert k v m⟩
    · by_cases hk : k' = k
      · exact ⟨v, hk ▸ self_mem_btInsert k v m⟩
      · exact ⟨v', mem_btInsert_of_mem k v hk hv'⟩

theorem new_keys (known : List (ArtifactId × Nat × List Nat))
    (acc : List (List Nat × String × Nat)) (k : List Nat) :
    (∃ v, (k, v) ∈ known.foldl (fun m e => btInsert e.2.2 (e.1.name, e.2.1) m) acc) ↔
      (∃ v, (k, v) ∈ acc) ∨ ∃ a ∈ known, a.2.2 = k := by
  induction known generalizing acc with
  | nil => simp
  | cons e rest ih =>
    rw [List.foldl_cons, ih]
    rw [btInsert_keys]
    constructor
    · rintro ((h | h) | h)
      · exact .inr ⟨e, List.mem_cons_self _ _, h.symm⟩
      · exact .inl h
      · obtain ⟨a, ha, hk⟩ := h
        exact .inr ⟨a, List.mem_cons_of_mem _ ha, hk⟩
    · rintro (h | ⟨a, ha, hk⟩)
      · exact .inl (.inr h)
      · rcases List.mem_cons.mp ha with ha' | ha'
        · exact .inl (.inl (ha' ▸ hk).symm)
        · exact .inr ⟨a, ha', hk⟩

theorem find?_append_first {α : Type} (p : α → Bool) (m₁ m₂ : List α) (e : α)
    (h1 : ∀ x ∈ m₁, p x = false) (h2 : p e = true) :
    List.find? p (m₁ ++ e :: m₂) = some e := by
  induction m₁ with
  | nil => simpa [List.find?_cons] using List.find?_cons_of_pos m₂ h2
  | cons a m₁ ih =>
    rw [List.cons_append, List.find?_cons_of_neg]
    · exact ih (fun x hx => h1 x (List.mem_cons_of_mem _ hx))
    · simp [h1 a (List.mem_cons_self _ _)]

/-- C9: `identify_address` ignores its address argument: for a fixed
registry and bytecode option, any two addresses produce the same
identification result. -/
theorem claim_C9_address_independent
    (m : List (List Nat × String × Nat)) (a1 a2 : Nat)
    (code : Option (List Nat)) :
    identify_address m a1 code = identify_address m a2 code := rfl

theorem diff_score_allZero_tailOne : diff_score codeAllZero codeTailOne = 1/20 := by
  have hm : min codeAllZero.length codeTailOne.length = 20 := by decide
  have h : List.countP (fun p => decide (p.1 ≠ p.2))
      ((codeAllZero.take 20).zip (codeTailOne.take 20)) = 1 := by decide
  simp only [diff_score, hm]
  rw [h]
  norm_num

theorem diff_score_tailOne_self : diff_score codeTailOne codeTailOne = 0 := by
  have hm : min codeTailOne.length codeTailOne.length = 20 := by decide
  have h : List.countP (fun p => decide (p.1 ≠ p.2))
      ((codeTailOne.take 20).zip (codeTailOne.take 20)) = 0 := by decide
  simp only [diff_score, hm]
  rw [h]
  norm_num

theorem diff_score_allOne_tailOne : diff_score codeAllOne codeTailOne = 19/20 := by
  have hm : min codeAllOne.length codeTailOne.length = 20 := by decide
  have h : List.countP (fun p => decide (p.1 ≠ p.2))
      ((codeAllOne.take 20).zip (codeTailOne.take 20)) = 19 := by decide
  simp only [diff_score, hm]
  rw [h]
  norm_num

/-- C2 counterexample: on the registry `regAB` and observed bytecode
`codeTailOne`, the minimum-score entry is "B" (score `0`), yet
`identify_address` returns entry "A" (score `1/20`, also below the `0.1`
threshold) because the source takes the first entry in iteration order whose
score is below the threshold, not the minimum-score entry. -/
theorem claim_C2_counterexample :
    identify_address regAB 0 (some codeTailOne) = (some "A", some "A", some 0) ∧
    diff_score codeTailOne codeTailOne < diff_score codeAllZero codeTailOne ∧
    diff_score codeAllZero codeTailOne < 1/10 := by
  have hA : diff_score codeAllZero codeTailOne < 1/10 := by
    rw [diff_score_allZero_tailOne]; norm_num
  refine ⟨?_, ?_, hA⟩
  · have hfind := find?_append_first
      (fun e : List Nat × String × Nat => decide (diff_score e.1 codeTailOne < 1/10))
      [] [(codeTailOne, "B", 1)] (codeAllZero, "A", 0)
      (by simp) (decide_eq_true hA)
    simp only [identify_address]
    rw [show regAB =
      [] ++ (codeAllZero, "A", 0) :: [(codeTailOne, "B", 1)] from rfl, hfind]
  · rw [diff_score_tailOne_self, diff_score_allZero_tailOne]
    norm_num

/-- C2 (amended): with bytecode supplied, `identify_address` returns the
FIRST entry in registry iteration order whose score against the observed
bytecode is strictly below `0.1` — its name as both display name and label
plus its interface — and returns the fully absent triple exactly when no
entry at all scores below `0.1`. -/
theorem claim_C2_first_below_threshold (adr : Nat) (c : List Nat) :
    (∀ (m₁ m₂ : List (List Nat × String × Nat)) (e : List Nat × String × Nat),
      (∀ e' ∈ m₁, ¬ diff_score e'.1 c < 1/10) → diff_score e.1 c < 1/10 →
      identify_address (m₁ ++ e :: m₂) adr (some c) =
        (some e.2.1, some e.2.1, some e.2.2)) ∧
    (∀ m : List (List Nat × String × Nat),
      (∀ e ∈ m, ¬ diff_score e.1 c < 1/10) →
      identify_address m adr (some c) = (none, none, none)) := by
  constructor
  · intro m₁ m₂ e h1 h2
    simp only [identify_address]
    rw [find?_append_first _ m₁ m₂ e
      (fun x hx => decide_eq_false (h1 x hx)) (decide_eq_true h2)]
  · intro m hm
    simp only [identify_address]
    rw [List.find?_eq_none.mpr (fun x hx => by
      rw [decide_eq_false (hm x hx)]; exact Bool.false_ne_true)]

/-- C2 witness: on a three-entry registry whose first entry scores `19/20`,
the returned entry is the first one below the threshold. -/
theorem claim_C2_first_below_threshold_witness :
    (∀ e' ∈ [(codeAllOne, "F", (7 : Nat))], ¬ diff_score e'.1 codeTailOne < 1/10) ∧
    diff_score codeAllZero codeTailOne < 1/10 ∧
    identify_address
      ([(codeAllOne, "F", 7)] ++ (codeAllZero, "A", 0) :: [(codeTailOne, "B", 1)])
      3 (some codeTailOne) = (some "A", some "A", some 0) := by
  have hF : ¬ diff_score codeAllOne codeTailOne < 1/10 := by
    rw [diff_score_allOne_tailOne]; norm_num
  have hA : diff_score codeAllZero codeTailOne < 1/10 := by
    rw [diff_score_allZero_tailOne]; norm_num
  refine ⟨?_, hA, ?_⟩
  · intro e' he'
    rcases List.mem_singleton.mp he' with rfl
    exact hF
  · exact (claim_C2_first_below_threshold 3 codeTailOne).1
      [(codeAllOne, "F", 7)] [(codeTailOne, "B", 1)] (codeAllZero, "A", 0)
      (fun e' he' => by rcases List.mem_singleton.mp he' with rfl; exact hF) hA

/-- C10: the registry built by `LocalTraceIdentifier::new` is keyed by
runtime bytecode: its keys are pairwise distinct (one surviving
`(name, interface)` pair per distinct bytecode, so byte-identical artifacts
collapse and cannot be distinguished), and a bytecode occurs as a key
exactly when some input artifact carries it. -/
theorem claim_C10_keyed_by_bytecode (known : List (ArtifactId × Nat × List Nat)) :
    ((LocalTraceIdentifier.new known).map Prod.fst).Nodup ∧
    ∀ k, (∃ v, (k, v) ∈ LocalTraceIdentifier.new known) ↔
      ∃ a ∈ known, a.2.2 = k := by
  constructor
  · have h := new_sorted known
    exact List.pairwise_map.mpr (h.imp fun hxy => lexLt_ne hxy)
  · intro k
    rw [LocalTraceIdentifier.new, new_keys]
    simp

theorem submitsOf_append (xs ys : List Ev) :
    submitsOf (xs ++ ys) = submitsOf xs ++ submitsOf ys := by
  simp [submitsOf]

theorem submit_mem_iff (j : Nat) (evs : List Ev) :
    Ev.submit j ∈ evs ↔ j ∈ submitsOf evs := by
  induction evs with
  | nil => simp [submitsOf]
  | cons e rest ih =>
    cases e with
    | submit i =>
      simp only [submitsOf, List.filterMap_cons] at *
      simp [List.mem_cons, ih]
    | awaitReceipt i =>
      simp only [submitsOf, List.filterMap_cons] at *
      simp only [List.mem_cons, ih]
      constructor
      · rintro (h | h)
        · exact absurd h (by simp)
        · exact h
      · exact fun h => .inr h
    | appendReceipt i =>
      simp only [submitsOf, List.filterMap_cons] at *
      simp only [List.mem_cons, ih]
      constructor
      · rintro (h | h)
        · exact absurd h (by simp)
        · exact h
      · exact fun h => .inr h

theorem seqFrom_append (xs ys : List Ev) (st : Nat × Nat) :
    seqFrom (xs ++ ys) st = (seqFrom xs st && seqFrom ys (stateAfter xs st)) := by
  induction xs generalizing st with
  | nil => simp [seqFrom, stateAfter]
  | cons e rest ih =>
    obtain ⟨sa, sp⟩ := st
    cases e with
    | submit i =>
      simp only [List.cons_append, seqFrom, stateAfter, List.foldl_cons, evStep,
        List.append_eq]
      rw [← stateAfter, ih]
      cases h1 : sa == 0 <;> cases h2 : sp == 0 <;> simp
    | awaitReceipt i =>
      simp only [List.cons_append, seqFrom, stateAfter, List.foldl_cons, evStep,
        List.append_eq]
      rw [← stateAfter, ih]
    | appendReceipt i =>
      simp only [List.cons_append, seqFrom, stateAfter, List.foldl_cons, evStep,
        List.append_eq]
      rw [← stateAfter, ih]

theorem withIdx_map_fst (o : Nat) (l : List Tx) :
    (withIdx o l).map Prod.fst = List.range' o l.length := by
  induction l generalizing o with
  | nil => simp [withIdx]
  | cons tx rest ih => simp [withIdx, List.range', ih]

theorem withIdx_append (o : Nat) (l1 l2 : List Tx) :
    withIdx o (l1 ++ l2) = withIdx o l1 ++ withIdx (o + l1.length) l2 := by
  induction l1 generalizing o with
  | nil => simp [withIdx]
  | cons tx rest ih =>
    simp only [List.cons_append, withIdx, List.append_eq, ih, List.length_cons]
    rw [show o + (rest.length + 1) = o + 1 + rest.length by omega]

theorem withIdx_mem {o : Nat} {l : List Tx} {x : Nat × Tx}
    (hx : x ∈ withIdx o l) : x.2 ∈ l := by
  induction l generalizing o with
  | nil => simp [withIdx] at hx
  | cons tx rest ih =>
    rcases List.mem_cons.mp hx with h | h
    · simp [h]
    · exact List.mem_cons_of_mem _ (ih h)

theorem resolvePayload_ok {ws : List Nat} {tx : Tx} (h : tx.sender ∈ ws) :
    resolvePayload ws tx = .ok tx := by
  rw [resolvePayload, if_pos]
  rw [List.any_eq_true]
  exact ⟨tx.sender, h, by simp⟩

theorem resolvePayload_err {ws : List Nat} {tx : Tx} (h : tx.sender ∉ ws) :
    resolvePayload ws tx =
      .error (.unknownSender tx.sender ws (tx.sender == DEFAULT_SENDER)) := by
  rw [resolvePayload, if_neg]
  rw [List.any_eq_true]
  rintro ⟨a, ha, hae⟩
  exact h (beq_iff_eq.mp hae ▸ ha)

theorem sendEvs_of_ok {net : Network} {tx : Tx} {w : Bool} {v : Receipt × Nat}
    (i : Nat) (h : send_transaction net tx w = .ok v) :
    sendEvs net i tx w = [.submit i, .awaitReceipt i] := by
  cases hc : (if w then checkNonce net tx else Except.ok ()) with
  | error e =>
    rw [send_transaction, hc] at h
    simp at h
  | ok u =>
    rw [send_transaction, hc] at h
    cases hb : net.broadcastTx tx with
    | error e => rw [hb] at h; simp at h
    | ok ro => simp only [sendEvs, hc, hb]

theorem insertByNonce_perm (x : Nat × Receipt × Nat)
    (l : List (Nat × Receipt × Nat)) : (insertByNonce x l).Perm (x :: l) := by
  induction l with
  | nil => rfl
  | cons y ys ih =>
    rw [insertByNonce]
    by_cases h : y.2.2 ≤ x.2.2
    · rw [if_pos h]
      exact (ih.cons y).trans (List.Perm.swap x y ys)
    · rw [if_neg h]

theorem sortByNonce_perm (l : List (Nat × Receipt × Nat)) :
    (sortByNonce l).Perm l := by
  have key : ∀ (l acc : List (Nat × Receipt × Nat)),
      (l.foldl (fun acc x => insertByNonce x acc) acc).Perm (acc ++ l) := by
    intro l
    induction l with
    | nil => simp
    | cons x xs ih =>
      intro acc
      rw [List.foldl_cons]
      exact ((ih _).trans ((insertByNonce_perm x acc).append_right xs)).trans
        List.perm_middle.symm
  simpa using key l []

theorem insertByNonce_sorted (x : Nat × Receipt × Nat)
    (l : List (Nat × Receipt × Nat))
    (hl : l.Pairwise (fun a b => a.2.2 ≤ b.2.2)) :
    (insertByNonce x l).Pairwise (fun a b => a.2.2 ≤ b.2.2) := by
  induction l with
  | nil => simp [insertByNonce]
  | cons y ys ih =>
    rw [List.pairwise_cons] at hl
    obtain ⟨hy, hys⟩ := hl
    rw [insertByNonce]
    by_cases h : y.2.2 ≤ x.2.2
    · rw [if_pos h]
      refine List.Pairwise.cons ?_ (ih hys)
      intro z hz
      have := (insertByNonce_perm x ys).mem_iff.mp hz
      rcases List.mem_cons.mp this with hz' | hz'
      · exact hz' ▸ h
      · exact hy z hz'
    · rw [if_neg h]
      refine List.Pairwise.cons ?_ (List.Pairwise.cons hy hys)
      intro z hz
      rcases List.mem_cons.mp hz with hz' | hz'
      · subst hz'; omega
      · exact le_trans (by omega) (hy z hz')

theorem sortByNonce_sorted (l : List (Nat × Receipt × Nat)) :
    (sortByNonce l).Pairwise (fun a b => a.2.2 ≤ b.2.2) := by
  have key : ∀ (l acc : List (Nat × Receipt × Nat)),
      acc.Pairwise (fun a b => a.2.2 ≤ b.2.2) →
      (l.foldl (fun acc x => insertByNonce x acc) acc).Pairwise
        (fun a b => a.2.2 ≤ b.2.2) := by
    intro l
    induction l with
    | nil => intro acc h; simpa using h
    | cons x xs ih =>
      intro acc h
      rw [List.foldl_cons]
      exact ih _ (insertByNonce_sorted x acc h)
  exact key l [] (by simp)

theorem insertByNonce_of_le (x : Nat × Receipt × Nat)
    (l : List (Nat × Receipt × Nat)) (h : ∀ y ∈ l, y.2.2 ≤ x.2.2) :
    insertByNonce x l = l ++ [x] := by
  induction l with
  | nil => rfl
  | cons y ys ih =>
    rw [insertByNonce, if_pos (h y (List.mem_cons_self _ _))]
    rw [ih (fun z hz => h z (List.mem_cons_of_mem _ hz))]
    rfl

theorem sortByNonce_of_sorted (l : List (Nat × Receipt × Nat))
    (hl : l.Pairwise (fun a b => a.2.2 ≤ b.2.2)) : sortByNonce l = l := by
  have key : ∀ (l acc : List (Nat × Receipt × Nat)),
      (acc ++ l).Pairwise (fun a b => a.2.2 ≤ b.2.2) →
      l.foldl (fun acc x => insertByNonce x acc) acc = acc ++ l := by
    intro l
    induction l with
    | nil => intro acc _; simp
    | cons x xs ih =>
      intro acc h
      rw [List.foldl_cons, insertByNonce_of_le x acc, ih (acc ++ [x]) (by simpa using h)]
      · simp
      · intro y hy
        have := List.pairwise_append.mp h
        exact this.2.2 y hy x (List.mem_cons_self _ _)
  exact key l [] (by simpa using hl)

theorem collectOks_allOk (f : Nat × Tx → Receipt × Nat) (l : List (Nat × Tx)) :
    collectOks (l.map (fun p => (p.1, Except.ok (f p)))) =
      (l.map (fun p => (p.1, (f p).1, (f p).2)), none) := by
  induction l with
  | nil => rfl
  | cons p rest ih => simp [collectOks, ih]

theorem collectOks_snd (l : List (Nat × Except BroadcastError (Receipt × Nat))) :
    (collectOks l).2 = firstError l := by
  induction l with
  | nil => rfl
  | cons p rest ih =>
    obtain ⟨i, o⟩ := p
    cases o with
    | ok v => simp [collectOks, firstError, ih]
    | error e => simp [collectOks, firstError]

theorem bLoop_false_resolve (net : Network) (ws : List Nat) :
    ∀ (L : List (Nat × Tx)) (seq : ScriptSequence) (pd : List (Nat × Tx))
      (evs : List Ev), (∀ x ∈ L, resolvePayload ws x.2 = .ok x.2) →
    bLoop net false ws L seq pd evs = (.ok (), seq, pd ++ L, evs) := by
  intro L
  induction L with
  | nil => intro seq pd evs _; simp [bLoop]
  | cons p rest ih =>
    intro seq pd evs h
    obtain ⟨i, tx⟩ := p
    rw [bLoop, h (i, tx) (List.mem_cons_self _ _)]
    simp only [Bool.false_eq_true, if_false]
    rw [ih seq (pd ++ [(i, tx)]) evs
      (fun x hx => h x (List.mem_cons_of_mem _ hx))]
    simp

theorem bLoop_false_err (net : Network) (ws : List Nat) (e : BroadcastError) :
    ∀ (L1 : List (Nat × Tx)) (i : Nat) (tx : Tx) (L2 : List (Nat × Tx))
      (seq : ScriptSequence) (pd : List (Nat × Tx)) (evs : List Ev),
    (∀ x ∈ L1, resolvePayload ws x.2 = .ok x.2) →
    resolvePayload ws tx = .error e →
    bLoop net false ws (L1 ++ (i, tx) :: L2) seq pd evs =
      (.error e, seq, pd ++ L1, evs) := by
  intro L1
  induction L1 with
  | nil =>
    intro i tx L2 seq pd evs _ herr
    rw [List.nil_append, bLoop, herr]
    simp
  | cons p rest ih =>
    intro i tx L2 seq pd evs h herr
    obtain ⟨j, ty⟩ := p
    rw [List.cons_append, bLoop, h (j, ty) (List.mem_cons_self _ _)]
    simp only [Bool.false_eq_true, if_false]
    rw [ih i tx L2 seq (pd ++ [(j, ty)]) evs
      (fun x hx => h x (List.mem_cons_of_mem _ hx)) herr]
    simp

theorem bLoop_true_pending (net : Network) (ws : List Nat) :
    ∀ (L : List (Nat × Tx)) (seq : ScriptSequence) (pd : List (Nat × Tx))
      (evs : List Ev), (bLoop net true ws L seq pd evs).2.2.1 = pd := by
  intro L
  induction L with
  | nil => intro seq pd evs; simp [bLoop]
  | cons p rest ih =>
    intro seq pd evs
    obtain ⟨i, tx⟩ := p
    rw [bLoop]
    cases hr : resolvePayload ws tx with
    | error e => rfl
    | ok tx' =>
      simp only [if_true]
      cases hs : send_transaction net tx' true with
      | ok v => exact ih _ _ _
      | error e => rfl

theorem bLoop_true_pre (net : Network) (ws : List Nat) :
    ∀ (pre : List Tx) (o : Nat) (M : List (Nat × Tx)) (seq : ScriptSequence)
      (pd : List (Nat × Tx)) (evs : List Ev),
    (∀ t ∈ pre, t.sender ∈ ws ∧ ∃ v, send_transaction net t true = .ok v) →
    ∃ rs Δ,
      bLoop net true ws (withIdx o pre ++ M) seq pd evs =
        bLoop net true ws M
          { transactions := seq.transactions, receipts := seq.receipts ++ rs }
          pd (evs ++ Δ) ∧
      submitsOf Δ = List.range' o pre.length := by
  intro pre
  induction pre with
  | nil =>
    intro o M seq pd evs _
    exact ⟨[], [], by simp [withIdx], by simp [submitsOf]⟩
  | cons t pre' ih =>
    intro o M seq pd evs h
    obtain ⟨hsend, v, hv⟩ := h t (List.mem_cons_self _ _)
    obtain ⟨r, n⟩ := v
    obtain ⟨rs, Δ, heq, hsub⟩ := ih (o + 1) M
      { transactions := seq.transactions, receipts := seq.receipts ++ [r] }
      pd (evs ++ sendEvs net o t true ++ [.appendReceipt o])
      (fun x hx => h x (List.mem_cons_of_mem _ hx))
    refine ⟨r :: rs, (sendEvs net o t true ++ [.appendReceipt o]) ++ Δ, ?_, ?_⟩
    · rw [withIdx, List.cons_append]
      simp only [bLoop, resolvePayload_ok hsend, if_true, hv]
      rw [heq]
      have h1 : (seq.receipts ++ [r]) ++ rs = seq.receipts ++ r :: rs := by
        simp
      have h2 : (evs ++ sendEvs net o t true ++ [Ev.appendReceipt o]) ++ Δ =
          evs ++ ((sendEvs net o t true ++ [Ev.appendReceipt o]) ++ Δ) := by
        simp
      simp only at h1 h2 ⊢
      rw [h1, h2]
    · rw [submitsOf_append, hsub, sendEvs_of_ok o hv]
      simp only [List.length_cons, List.range'_succ]
      rfl

theorem bLoop_true_ok_submits (net : Network) (ws : List Nat) :
    ∀ (L : List (Nat × Tx)) (seq : ScriptSequence) (pd : List (Nat × Tx))
      (evs : List Ev), (bLoop net true ws L seq pd evs).1 = .ok () →
    submitsOf (bLoop net true ws L seq pd evs).2.2.2 =
      submitsOf evs ++ L.map Prod.fst := by
  intro L
  induction L with
  | nil => intro seq pd evs _; simp [bLoop]
  | cons p rest ih =>
    intro seq pd evs hok
    obtain ⟨i, tx⟩ := p
    cases hr : resolvePayload ws tx with
    | error e =>
      simp only [bLoop, hr] at hok
      simp at hok
    | ok tx' =>
      cases hs : send_transaction net tx' true with
      | error e =>
        simp only [bLoop, hr, if_true, hs] at hok
        simp at hok
      | ok v =>
        obtain ⟨r, n⟩ := v
        simp only [bLoop, hr, if_true, hs] at hok ⊢
        rw [ih _ _ _ hok]
        rw [submitsOf_append, submitsOf_append, sendEvs_of_ok i hs]
        simp [submitsOf]

/-- The unfolding of `send_transactions` in the presence of a signer. -/
theorem send_transactions_eq (net : Network) (ws : List Nat)
    (seq : ScriptSequence) (h : ws ≠ []) :
    send_transactions net ws seq =
      match bLoop net (decide (ws.length > 1)) ws
          (withIdx seq.receipts.length
            (seq.transactions.drop seq.receipts.length)) seq [] [] with
      | (.error e, seq', _pending, evs) => (.error e, seq', evs)
      | (.ok _, seq', pending, evs) =>
        let (res, seq'', evs') := wait_for_receipts net pending seq'
        (res, seq'', evs ++ evs') := by
  rw [send_transactions, if_neg (by simp [h])]

/-- Specialization of `send_transactions_eq` when the loop bails. -/
theorem send_transactions_eq_err (net : Network) (ws : List Nat)
    (seq : ScriptSequence) (h : ws ≠ []) {e : BroadcastError}
    {seq' : ScriptSequence} {pd : List (Nat × Tx)} {evs : List Ev}
    (hB : bLoop net (decide (ws.length > 1)) ws
      (withIdx seq.receipts.length
        (seq.transactions.drop seq.receipts.length)) seq [] [] =
      (.error e, seq', pd, evs)) :
    send_transactions net ws seq = (.error e, seq', evs) := by
  rw [send_transactions_eq net ws seq h, hB]

/-- Specialization of `send_transactions_eq` when the loop completes and the
collected futures are handed to `wait_for_receipts`. -/
theorem send_transactions_eq_ok (net : Network) (ws : List Nat)
    (seq : ScriptSequence) (h : ws ≠ []) {u : Unit}
    {seq' : ScriptSequence} {pd : List (Nat × Tx)} {evs : List Ev}
    (hB : bLoop net (decide (ws.length > 1)) ws
      (withIdx seq.receipts.length
        (seq.transactions.drop seq.receipts.length)) seq [] [] =
      (.ok u, seq', pd, evs)) :
    send_transactions net ws seq =
      ((wait_for_receipts net pd seq').1, (wait_for_receipts net pd seq').2.1,
       evs ++ (wait_for_receipts net pd seq').2.2) := by
  rw [send_transactions_eq net ws seq h, hB]

theorem send_transaction_nowait_ok {net : Network} {tx : Tx} {r : Receipt}
    (h : net.broadcastTx tx = .ok (some r)) :
    send_transaction net tx false = .ok (r, tx.nonce) := by
  rw [send_transaction]
  simp [h]

theorem send_transaction_drift {net : Network} {tx : Tx} {n : Nat}
    (hq : net.nextNonce tx.sender = .ok n) (hn : n ≠ tx.nonce) :
    send_transaction net tx true = .error .nonceDrift := by
  rw [send_transaction]
  simp [checkNonce, hq, hn]

theorem sendEvs_drift {net : Network} {tx : Tx} {n : Nat} (i : Nat)
    (hq : net.nextNonce tx.sender = .ok n) (hn : n ≠ tx.nonce) :
    sendEvs net i tx true = [] := by
  rw [sendEvs]
  simp [checkNonce, hq, hn]

theorem resolvePayload_ok_inv {ws : List Nat} {tx tx' : Tx}
    (h : resolvePayload ws tx = .ok tx') : tx' = tx := by
  rw [resolvePayload] at h
  by_cases hc : ws.any (· == tx.sender)
  · rw [if_pos hc] at h
    exact (Except.ok.injEq _ _ ▸ h).symm
  · rw [if_neg hc] at h
    exact absurd h (by simp)

theorem bLoop_false_ok (net : Network) (ws : List Nat) :
    ∀ (L : List (Nat × Tx)) (seq : ScriptSequence) (pd : List (Nat × Tx))
      (evs : List Ev), (bLoop net false ws L seq pd evs).1 = .ok () →
    bLoop net false ws L seq pd evs = (.ok (), seq, pd ++ L, evs) := by
  intro L
  induction L with
  | nil => intro seq pd evs _; simp [bLoop]
  | cons p rest ih =>
    intro seq pd evs hok
    obtain ⟨i, tx⟩ := p
    cases hr : resolvePayload ws tx with
    | error e =>
      simp only [bLoop, hr] at hok
      simp at hok
    | ok tx' =>
      obtain rfl := resolvePayload_ok_inv hr
      simp only [bLoop, hr, Bool.false_eq_true, if_false] at hok ⊢
      rw [ih _ _ _ hok]
      simp

theorem wait_for_receipts_nil (net : Network) (seq : ScriptSequence) :
    wait_for_receipts net [] seq = (.ok (), seq, []) := by
  simp [wait_for_receipts, collectOks, sortByNonce, joinAllEvs]

theorem seqFrom_sendEvs (net : Network) (i : Nat) (tx : Tx) (w : Bool) :
    seqFrom (sendEvs net i tx w) (0, 0) = true := by
  rw [sendEvs]
  cases (if w then checkNonce net tx else Except.ok ()) with
  | error e => rfl
  | ok u =>
    cases net.broadcastTx tx with
    | error e => rfl
    | ok ro => rfl

theorem stateAfter_append (xs ys : List Ev) (st : Nat × Nat) :
    stateAfter (xs ++ ys) st = stateAfter ys (stateAfter xs st) := by
  simp [stateAfter, List.foldl_append]

theorem bLoop_true_seq (net : Network) (ws : List Nat) :
    ∀ (L : List (Nat × Tx)) (seq : ScriptSequence) (pd : List (Nat × Tx))
      (evs : List Ev),
    seqFrom evs (0, 0) = true → stateAfter evs (0, 0) = (0, 0) →
    seqFrom (bLoop net true ws L seq pd evs).2.2.2 (0, 0) = true := by
  intro L
  induction L with
  | nil => intro seq pd evs h1 _; simpa [bLoop] using h1
  | cons p rest ih =>
    intro seq pd evs h1 h2
    obtain ⟨i, tx⟩ := p
    cases hr : resolvePayload ws tx with
    | error e => simpa [bLoop, hr] using h1
    | ok tx' =>
      cases hs : send_transaction net tx' true with
      | error e =>
        simp only [bLoop, hr, if_true, hs]
        rw [seqFrom_append, h1, Bool.true_and, h2]
        exact seqFrom_sendEvs net i tx' true
      | ok v =>
        obtain ⟨r, n⟩ := v
        simp only [bLoop, hr, if_true, hs]
        refine ih _ _ _ ?_ ?_
        · rw [show evs ++ sendEvs net i tx' true ++ [Ev.appendReceipt i] =
            evs ++ (sendEvs net i tx' true ++ [Ev.appendReceipt i]) by simp]
          rw [seqFrom_append, h1, Bool.true_and, h2, sendEvs_of_ok i hs]
          rfl
        · rw [show evs ++ sendEvs net i tx' true ++ [Ev.appendReceipt i] =
            evs ++ (sendEvs net i tx' true ++ [Ev.appendReceipt i]) by simp]
          rw [stateAfter_append, h2, sendEvs_of_ok i hs]
          rfl

theorem withIdx_map_snd (o : Nat) (l : List Tx) :
    (withIdx o l).map Prod.snd = l := by
  induction l generalizing o with
  | nil => rfl
  | cons tx rest ih => simp [withIdx, ih]

theorem withIdx_pairwise {R : Tx → Tx → Prop} {l : List Tx} (o : Nat)
    (h : l.Pairwise R) : (withIdx o l).Pairwise (fun x y => R x.2 y.2) := by
  induction l generalizing o with
  | nil => simp [withIdx]
  | cons tx rest ih =>
    rw [List.pairwise_cons] at h
    refine List.Pairwise.cons ?_ (ih (o + 1) h.2)
    intro y hy
    exact h.1 y.2 (withIdx_mem hy)

/-- The results of a fully successful pass of `wait_for_receipts` over the
collected futures: no error, sorted receipts appended, and the `join_all`
schedule followed by the append events. -/
theorem wait_for_receipts_allOk (net : Network) (L : List (Nat × Tx))
    (seq : ScriptSequence) (f : Nat × Tx → Receipt × Nat)
    (h : ∀ p ∈ L, send_transaction net p.2 false = .ok (f p)) :
    wait_for_receipts net L seq =
      (.ok (),
       ⟨seq.transactions,
        seq.receipts ++ (sortByNonce (L.map (fun p => (p.1, f p)))).map
          (fun x => x.2.1)⟩,
       joinAllEvs net L ++ (sortByNonce (L.map (fun p => (p.1, f p)))).map
         (fun x => Ev.appendReceipt x.1)) := by
  have h1 : L.map (fun p => (p.1, send_transaction net p.2 false)) =
      L.map (fun p => (p.1, Except.ok (f p))) :=
    List.map_congr_left (fun p hp => by rw [h p hp])
  have h2 : collectOks (L.map (fun p => (p.1, Except.ok (f p)))) =
      (L.map (fun p => (p.1, f p)), none) := by
    have := collectOks_allOk f L
    convert this using 3
  simp only [wait_for_receipts, h1, h2]

theorem withIdx_map_snd_comp {α : Type} (o : Nat) (l : List Tx) (g : Tx → α) :
    (withIdx o l).map (fun p => g p.2) = l.map g := by
  rw [show (fun p : Nat × Tx => g p.2) = g ∘ Prod.snd from rfl]
  rw [← List.map_map, withIdx_map_snd]

/-- C1 counterexample: with exactly ONE signing identity and two successful
transactions, the trace is `submit 0, submit 1, awaitReceipt 0, …`: the
second transaction is submitted before the first receipt is awaited, so
single-signer submission is NOT strictly sequential (the source collects
the lazy futures and drives them together in `join_all`; it is the
multi-signer path that waits per transaction). -/
theorem claim_C1_counterexample :
    ¬ StrictlySequential
      (send_transactions netPlain [1]
        { transactions := [txN7, txN5], receipts := [] }).2.2 := by
  simp only [StrictlySequential]
  decide

/-- C1 (amended): submission policy is the reverse of the claim: when MORE
than one signing identity is in use, submissions are strictly sequential —
each transaction's receipt is awaited and appended before the next is
submitted; when exactly one identity is in use the lazy submission futures
are collected and driven together, without per-transaction waiting. -/
theorem claim_C1_multi_signer_sequential (net : Network) (ws : List Nat)
    (seq : ScriptSequence) (h : 1 < ws.length) :
    StrictlySequential (send_transactions net ws seq).2.2 := by
  have hne : ws ≠ [] := by intro he; subst he; simp at h
  have hw : decide (ws.length > 1) = true := decide_eq_true h
  rw [send_transactions_eq net ws seq hne, hw]
  rcases hB : bLoop net true ws
      (withIdx seq.receipts.length
        (seq.transactions.drop seq.receipts.length)) seq [] []
    with ⟨res, seq', pending, evs⟩
  have hpd : pending = [] := by
    have hp := bLoop_true_pending net ws
      (withIdx seq.receipts.length
        (seq.transactions.drop seq.receipts.length)) seq [] []
    rw [hB] at hp
    exact hp
  have hseq : seqFrom evs (0, 0) = true := by
    have hs := bLoop_true_seq net ws
      (withIdx seq.receipts.length
        (seq.transactions.drop seq.receipts.length)) seq [] [] rfl rfl
    rw [hB] at hs
    exact hs
  cases res with
  | error e => exact hseq
  | ok u =>
    subst hpd
    simp only [wait_for_receipts_nil, List.append_nil]
    exact hseq

/-- C1 witness: a two-signer run is strictly sequential. -/
theorem claim_C1_multi_signer_sequential_witness :
    1 < ([1, 2] : List Nat).length ∧
    StrictlySequential
      (send_transactions netMatch [1, 2]
        { transactions := [txN5, txS2N3], receipts := [] }).2.2 :=
  ⟨by decide, claim_C1_multi_signer_sequential netMatch [1, 2]
    { transactions := [txN5, txS2N3], receipts := [] } (by decide)⟩

/-- C3 counterexample: with a single signing identity and the two
transactions declared in nonce order `7, 5` (both successfully submitted),
the record ends with receipts `[105, 107]` — the receipts sorted by nonce —
whereas declaration order would give `[107, 105]`: the appended receipts do
NOT follow declaration order. -/
theorem claim_C3_counterexample :
    (send_transactions netPlain [1]
      { transactions := [txN7, txN5], receipts := [] }).1 = .ok () ∧
    (send_transactions netPlain [1]
      { transactions := [txN7, txN5], receipts := [] }).2.1.receipts =
      [105, 107] ∧
    ([105, 107] : List Receipt) ≠ [107, 105] :=
  ⟨by decide, by decide, by decide⟩

/-- C3 (amended): with a single signing identity, receipts are appended in
ascending nonce order; this equals declaration order exactly when the
declared nonces are ascending (which the claim left implicit): for every
run whose remaining transactions all belong to the single signer, all
succeed, and carry ascending nonces, the appended receipts follow the
declaration order. -/
theorem claim_C3_single_signer_order (net : Network) (w : Nat)
    (seq : ScriptSequence) (rcpt : Tx → Receipt)
    (hsend : ∀ t ∈ seq.transactions.drop seq.receipts.length, t.sender = w)
    (hnet : ∀ t ∈ seq.transactions.drop seq.receipts.length,
      net.broadcastTx t = .ok (some (rcpt t)))
    (hmono : (seq.transactions.drop seq.receipts.length).Pairwise
      (fun a b => a.nonce ≤ b.nonce)) :
    (send_transactions net [w] seq).1 = .ok () ∧
    (send_transactions net [w] seq).2.1.receipts =
      seq.receipts ++ (seq.transactions.drop seq.receipts.length).map rcpt := by
  have hres : ∀ x ∈ withIdx seq.receipts.length
      (seq.transactions.drop seq.receipts.length),
      resolvePayload [w] x.2 = .ok x.2 := by
    intro x hx
    exact resolvePayload_ok (by
      rw [hsend x.2 (withIdx_mem hx)]
      exact List.mem_singleton.mpr rfl)
  have hsend2 : ∀ p ∈ withIdx seq.receipts.length
      (seq.transactions.drop seq.receipts.length),
      send_transaction net p.2 false = .ok (rcptNonce rcpt p) :=
    fun p hp => send_transaction_nowait_ok (hnet p.2 (withIdx_mem hp))
  have hsorted : ((withIdx seq.receipts.length
      (seq.transactions.drop seq.receipts.length)).map
        (fun p => (p.1, rcptNonce rcpt p))).Pairwise
      (fun a b => a.2.2 ≤ b.2.2) :=
    List.pairwise_map.mpr (withIdx_pairwise seq.receipts.length hmono)
  rw [send_transactions_eq net [w] seq (by simp)]
  rw [show decide (([w] : List Nat).length > 1) = false from rfl]
  rw [bLoop_false_resolve net [w] _ seq [] [] hres]
  simp only [List.nil_append]
  rw [wait_for_receipts_allOk net _ seq (rcptNonce rcpt) hsend2]
  rw [sortByNonce_of_sorted _ hsorted]
  refine ⟨rfl, ?_⟩
  simp only [List.map_map]
  rw [show ((fun x : Nat × Receipt × Nat => x.2.1) ∘
      (fun p : Nat × Tx => (p.1, rcptNonce rcpt p))) =
      (fun p : Nat × Tx => rcpt p.2) from rfl]
  rw [withIdx_map_snd_comp]

/-- C3 witness: nonces declared in order `5, 7` under a single signer give
receipts in declaration order. -/
theorem claim_C3_single_signer_order_witness :
    (∀ t ∈ (([txN5, txN7] : List Tx)).drop 0, t.sender = 1) ∧
    (∀ t ∈ (([txN5, txN7] : List Tx)).drop 0,
      netPlain.broadcastTx t = .ok (some (100 + t.nonce))) ∧
    ((([txN5, txN7] : List Tx)).drop 0).Pairwise
      (fun a b => a.nonce ≤ b.nonce) ∧
    (send_transactions netPlain [1]
      { transactions := [txN5, txN7], receipts := [] }).2.1.receipts =
      [] ++ ([txN5, txN7].map (fun t => 100 + t.nonce)) :=
  ⟨by decide, by decide, by decide,
    (claim_C3_single_signer_order netPlain 1
      { transactions := [txN5, txN7], receipts := [] }
      (fun t => 100 + t.nonce) (by decide) (by decide) (by decide)).2⟩

/-- C4 counterexample: with MULTIPLE signing identities (addresses `1` and
`2`) and transactions carrying nonces `5` then `3`, the run succeeds and the
record receives receipts `[105, 103]` in declaration order — the nonce
sequence `5, 3` is not ascending and nothing was sorted before appending
(the sort-then-append path serves the single-signer mode; under several
signers each receipt is appended immediately as it is awaited). -/
theorem claim_C4_counterexample :
    (send_transactions netMatch [1, 2]
      { transactions := [txN5, txS2N3], receipts := [] }).1 = .ok () ∧
    (send_transactions netMatch [1, 2]
      { transactions := [txN5, txS2N3], receipts := [] }).2.1.receipts =
      [105, 103] ∧
    ([105, 103] : List Receipt) ≠ [103, 105] :=
  ⟨by decide, by decide, by decide⟩

/-- C4 (amended): it is the SINGLE-signer mode that collects submissions
and sorts the collected `(receipt, nonce)` pairs by nonce ascending before
appending them to the record: for every successful single-signer run the
appended suffix is the nonce-sorted permutation of the collected pairs. -/
theorem claim_C4_single_signer_sorted (net : Network) (w : Nat)
    (seq : ScriptSequence) (rcpt : Tx → Receipt)
    (hsend : ∀ t ∈ seq.transactions.drop seq.receipts.length, t.sender = w)
    (hnet : ∀ t ∈ seq.transactions.drop seq.receipts.length,
      net.broadcastTx t = .ok (some (rcpt t))) :
    (send_transactions net [w] seq).2.1.receipts =
      seq.receipts ++
        (sortByNonce ((withIdx seq.receipts.length
          (seq.transactions.drop seq.receipts.length)).map
            (fun p => (p.1, rcptNonce rcpt p)))).map (fun x => x.2.1) ∧
    ((sortByNonce ((withIdx seq.receipts.length
        (seq.transactions.drop seq.receipts.length)).map
          (fun p => (p.1, rcptNonce rcpt p)))).map
        (fun x => x.2.2)).Pairwise (· ≤ ·) ∧
    (sortByNonce ((withIdx seq.receipts.length
        (seq.transactions.drop seq.receipts.length)).map
          (fun p => (p.1, rcptNonce rcpt p)))).Perm
      ((withIdx seq.receipts.length
        (seq.transactions.drop seq.receipts.length)).map
          (fun p => (p.1, rcptNonce rcpt p))) := by
  have hres : ∀ x ∈ withIdx seq.receipts.length
      (seq.transactions.drop seq.receipts.length),
      resolvePayload [w] x.2 = .ok x.2 := by
    intro x hx
    exact resolvePayload_ok (by
      rw [hsend x.2 (withIdx_mem hx)]
      exact List.mem_singleton.mpr rfl)
  have hsend2 : ∀ p ∈ withIdx seq.receipts.length
      (seq.transactions.drop seq.receipts.length),
      send_transaction net p.2 false = .ok (rcptNonce rcpt p) :=
    fun p hp => send_transaction_nowait_ok (hnet p.2 (withIdx_mem hp))
  refine ⟨?_, List.pairwise_map.mpr (sortByNonce_sorted _), sortByNonce_perm _⟩
  rw [send_transactions_eq net [w] seq (by simp)]
  rw [show decide (([w] : List Nat).length > 1) = false from rfl]
  rw [bLoop_false_resolve net [w] _ seq [] [] hres]
  simp only [List.nil_append]
  rw [wait_for_receipts_allOk net _ seq (rcptNonce rcpt) hsend2]

/-- C4 witness: a single-signer run with nonces declared out of order
(`7` then `5`) appends the sorted pairs. -/
theorem claim_C4_single_signer_sorted_witness :
    (∀ t ∈ (([txN7, txN5] : List Tx)).drop 0, t.sender = 1) ∧
    (∀ t ∈ (([txN7, txN5] : List Tx)).drop 0,
      netPlain.broadcastTx t = .ok (some (100 + t.nonce))) ∧
    (send_transactions netPlain [1]
      { transactions := [txN7, txN5], receipts := [] }).2.1.receipts =
      [] ++ (sortByNonce ((withIdx 0 (([txN7, txN5] : List Tx).drop 0)).map
        (fun p => (p.1, rcptNonce (fun t => 100 + t.nonce) p)))).map
          (fun x => x.2.1) :=
  ⟨by decide, by decide,
    (claim_C4_single_signer_sorted netPlain 1
      { transactions := [txN7, txN5], receipts := [] }
      (fun t => 100 + t.nonce) (by decide) (by decide)).1⟩

/-- C5: under multi-signer mode (`wait` holds), immediately before a
transaction's submission the sender's on-chain nonce is queried; when it
differs from the transaction's carried nonce the whole run fails with the
nonce-drift error and no send of that transaction ever occurs (provided the
transactions before it were matched and submitted successfully). -/
theorem claim_C5_nonce_drift (net : Network) (ws : List Nat)
    (seq : ScriptSequence) (pre : List Tx) (tx : Tx) (rest : List Tx) (n : Nat)
    (hmulti : 1 < ws.length)
    (hsplit : seq.transactions.drop seq.receipts.length = pre ++ tx :: rest)
    (hpre : ∀ t ∈ pre, t.sender ∈ ws ∧ ∃ v, send_transaction net t true = .ok v)
    (htx : tx.sender ∈ ws)
    (hq : net.nextNonce tx.sender = .ok n) (hn : n ≠ tx.nonce) :
    (send_transactions net ws seq).1 = .error .nonceDrift ∧
    Ev.submit (seq.receipts.length + pre.length) ∉
      (send_transactions net ws seq).2.2 := by
  have hne : ws ≠ [] := by
    intro he
    subst he
    simp at hmulti
  rw [send_transactions_eq net ws seq hne, decide_eq_true hmulti, hsplit,
    withIdx_append]
  obtain ⟨rs, Δ, heq, hsub⟩ := bLoop_true_pre net ws pre seq.receipts.length
    (withIdx (seq.receipts.length + pre.length) (tx :: rest)) seq [] [] hpre
  rw [heq]
  simp only [withIdx, bLoop, resolvePayload_ok htx, if_true,
    send_transaction_drift hq hn, sendEvs_drift _ hq hn]
  refine ⟨trivial, ?_⟩
  rw [List.append_nil, List.nil_append]
  rw [submit_mem_iff, hsub, List.mem_range'_1]
  omega

/-- C5 witness: the spec scenario — the nonce query answers `9` while the
next pending transaction declares nonce `7` under two signers: the run
fails with the drift error before any send. -/
theorem claim_C5_nonce_drift_witness :
    1 < ([1, 2] : List Nat).length ∧
    (([txN7] : List Tx)).drop 0 = [] ++ txN7 :: [] ∧
    netDrift.nextNonce txN7.sender = .ok 9 ∧ (9 : Nat) ≠ txN7.nonce ∧
    (send_transactions netDrift [1, 2]
      { transactions := [txN7], receipts := [] }).1 = .error .nonceDrift :=
  ⟨by decide, by decide, by decide, by decide,
    (claim_C5_nonce_drift netDrift [1, 2]
      { transactions := [txN7], receipts := [] } [] txN7 [] 9
      (by decide) (by decide) (by intro t ht; simp at ht) (by decide)
      (by decide) (by decide)).1⟩

theorem wait_for_receipts_evs (net : Network) (L : List (Nat × Tx))
    (seq : ScriptSequence) :
    (wait_for_receipts net L seq).2.2 = joinAllEvs net L ++
      (sortByNonce (collectOks (L.map
        (fun p => (p.1, send_transaction net p.2 false)))).1).map
          (fun x => Ev.appendReceipt x.1) := by
  simp only [wait_for_receipts]

theorem wait_for_receipts_fst (net : Network) (L : List (Nat × Tx))
    (seq : ScriptSequence) :
    (wait_for_receipts net L seq).1 =
      match firstError (L.map (fun p => (p.1, send_transaction net p.2 false))) with
      | some e => .error e
      | none => .ok () := by
  rw [← collectOks_snd (L.map (fun p => (p.1, send_transaction net p.2 false)))]
  simp only [wait_for_receipts]

theorem submitsOf_joinAllEvs (net : Network) (L : List (Nat × Tx)) :
    submitsOf (joinAllEvs net L) = L.map Prod.fst := by
  rw [joinAllEvs, submitsOf_append]
  have h1 : submitsOf (L.map (fun p => Ev.submit p.1)) = L.map Prod.fst := by
    rw [submitsOf, List.filterMap_map]
    exact congrFun (List.filterMap_eq_map Prod.fst) L
  have h2 : submitsOf (L.filterMap (fun p =>
      match net.broadcastTx p.2 with
      | .ok _ => some (Ev.awaitReceipt p.1)
      | .error _ => none)) = [] := by
    rw [submitsOf, List.filterMap_filterMap]
    rw [List.filterMap_eq_nil_iff]
    intro p _
    cases net.broadcastTx p.2 <;> rfl
  rw [h1, h2, List.append_nil]

theorem submitsOf_appendEvents (S : List (Nat × Receipt × Nat)) :
    submitsOf (S.map (fun x => Ev.appendReceipt x.1)) = [] := by
  rw [submitsOf, List.filterMap_map, List.filterMap_eq_nil_iff]
  intro x _
  rfl

/-- C6: resuming from a record whose receipts cover a prefix, a successful
run submits exactly the unreceipted suffix: the submitted indices are
`receipts.length, …, transactions.length - 1` in order, every submitted
index is at least `receipts.length` (no already-receipted transaction is
re-submitted), and the number of new submissions is
`transactions.length - receipts.length`. -/
theorem claim_C6_resume_skips_receipted (net : Network) (ws : List Nat)
    (seq : ScriptSequence)
    (hlen : seq.receipts.length ≤ seq.transactions.length)
    (hok : (send_transactions net ws seq).1 = .ok ()) :
    submitsOf (send_transactions net ws seq).2.2 =
      List.range' seq.receipts.length
        (seq.transactions.length - seq.receipts.length) ∧
    (∀ i ∈ submitsOf (send_transactions net ws seq).2.2,
      seq.receipts.length ≤ i) ∧
    (submitsOf (send_transactions net ws seq).2.2).length =
      seq.transactions.length - seq.receipts.length := by
  have main : submitsOf (send_transactions net ws seq).2.2 =
      List.range' seq.receipts.length
        (seq.transactions.length - seq.receipts.length) := by
    by_cases hws : ws = []
    · subst hws
      rw [send_transactions] at hok
      simp at hok
    · rcases hB : bLoop net (decide (ws.length > 1)) ws
          (withIdx seq.receipts.length
            (seq.transactions.drop seq.receipts.length)) seq [] []
        with ⟨res, seq', pending, evs⟩
      cases res with
      | error e =>
        rw [send_transactions_eq_err net ws seq hws hB] at hok
        simp at hok
      | ok u =>
        rw [send_transactions_eq_ok net ws seq hws hB]
        cases hb : decide (ws.length > 1) with
        | true =>
          rw [hb] at hB
          have hpd : pending = [] := by
            have hp := bLoop_true_pending net ws
              (withIdx seq.receipts.length
                (seq.transactions.drop seq.receipts.length)) seq [] []
            rw [hB] at hp
            exact hp
          have hsub := bLoop_true_ok_submits net ws
            (withIdx seq.receipts.length
              (seq.transactions.drop seq.receipts.length)) seq [] []
            (by rw [hB])
          rw [hB] at hsub
          subst hpd
          simp only [wait_for_receipts_nil, List.append_nil]
          rw [hsub]
          simp only [submitsOf, List.filterMap_nil, List.nil_append]
          rw [withIdx_map_fst, List.length_drop]
        | false =>
          rw [hb] at hB
          have hshape := bLoop_false_ok net ws
            (withIdx seq.receipts.length
              (seq.transactions.drop seq.receipts.length)) seq [] []
            (by rw [hB])
          rw [hB] at hshape
          have hpd : pending = [] ++ withIdx seq.receipts.length
              (seq.transactions.drop seq.receipts.length) :=
            congrArg (fun x => x.2.2.1) hshape
          have hevs : evs = [] := congrArg (fun x => x.2.2.2) hshape
          subst hevs
          rw [List.nil_append] at hpd
          subst hpd
          rw [wait_for_receipts_evs]
          rw [List.nil_append, submitsOf_append, submitsOf_joinAllEvs,
            submitsOf_appendEvents, List.append_nil, withIdx_map_fst,
            List.length_drop]
  refine ⟨main, ?_, ?_⟩
  · intro i hi
    rw [main, List.mem_range'_1] at hi
    exact hi.1
  · rw [main, List.length_range']

/-- C6 witness: a record with one existing receipt over three transactions
resumes with exactly the two remaining submissions, indices `1` and `2`. -/
theorem claim_C6_resume_skips_receipted_witness :
    (1 : Nat) ≤ ([txN5, txN7, txN5] : List Tx).length ∧
    (send_transactions netPlain [1]
      { transactions := [txN5, txN7, txN5], receipts := [42] }).1 = .ok () ∧
    submitsOf (send_transactions netPlain [1]
      { transactions := [txN5, txN7, txN5], receipts := [42] }).2.2 =
      List.range' 1 2 :=
  ⟨by decide, by decide,
    (claim_C6_resume_skips_receipted netPlain [1]
      { transactions := [txN5, txN7, txN5], receipts := [42] }
      (by decide) (by decide)).1⟩

/-- C7: a pending transaction whose declared sender matches no loaded
signing identity makes the run fail with the unknown-sender error carrying
the unmatched address, the list of available signer addresses, and the
default-sender hint exactly when the address equals `DEFAULT_SENDER`; that
transaction is never submitted (provided the transactions before it were
matched and, under the waiting mode, submitted successfully). -/
theorem claim_C7_unknown_sender (net : Network) (ws : List Nat)
    (seq : ScriptSequence) (pre : List Tx) (tx : Tx) (rest : List Tx)
    (hws : ws ≠ [])
    (hsplit : seq.transactions.drop seq.receipts.length = pre ++ tx :: rest)
    (hpre : ∀ t ∈ pre, t.sender ∈ ws ∧ ∃ v, send_transaction net t true = .ok v)
    (htx : tx.sender ∉ ws) :
    (send_transactions net ws seq).1 =
      .error (.unknownSender tx.sender ws (tx.sender == DEFAULT_SENDER)) ∧
    Ev.submit (seq.receipts.length + pre.length) ∉
      (send_transactions net ws seq).2.2 := by
  rw [send_transactions_eq net ws seq hws, hsplit, withIdx_append]
  cases hb : decide (ws.length > 1) with
  | true =>
    obtain ⟨rs, Δ, heq, hsub⟩ := bLoop_true_pre net ws pre seq.receipts.length
      (withIdx (seq.receipts.length + pre.length) (tx :: rest)) seq [] [] hpre
    rw [heq]
    simp only [withIdx, bLoop, resolvePayload_err htx]
    refine ⟨trivial, ?_⟩
    rw [List.nil_append]
    rw [submit_mem_iff, hsub, List.mem_range'_1]
    omega
  | false =>
    simp only [withIdx]
    rw [bLoop_false_err net ws _ (withIdx seq.receipts.length pre)
      (seq.receipts.length + pre.length) tx
      (withIdx (seq.receipts.length + pre.length + 1) rest) seq [] []
      (fun x hx => resolvePayload_ok (hpre x.2 (withIdx_mem hx)).1)
      (resolvePayload_err htx)]
    exact ⟨rfl, by simp⟩

/-- C7 witness: a transaction from the unmatched address `3` (≠ the default
sender) after one good transaction, under a single signer. -/
theorem claim_C7_unknown_sender_witness :
    ([1] : List Nat) ≠ [] ∧
    ([txN5, { sender := 3, nonce := 0 }] : List Tx).drop 0 =
      [txN5] ++ { sender := 3, nonce := 0 } :: [] ∧
    ((3 : Nat) ∉ ([1] : List Nat)) ∧
    (send_transactions netMatch [1]
      { transactions := [txN5, { sender := 3, nonce := 0 }],
        receipts := [] }).1 =
      .error (.unknownSender 3 [1] ((3 : Nat) == DEFAULT_SENDER)) :=
  ⟨by decide, by decide, by decide,
    (claim_C7_unknown_sender netMatch [1]
      { transactions := [txN5, { sender := 3, nonce := 0 }], receipts := [] }
      [txN5] { sender := 3, nonce := 0 } [] (by decide) (by decide)
      (by
        intro t ht
        rcases List.mem_singleton.mp ht with rfl
        exact ⟨by decide, ⟨(105, 5), by decide⟩⟩)
      (by decide)).1⟩

/-- C8: `wait_for_receipts` drives every collected submission to completion
(`join_all`): every collected task's send occurs, every task that obtained a
pending handle is awaited, and the run's result is the FIRST error among
the completed outcomes in task order (success when none errored) — the
error is returned only after all outstanding submissions have resolved. -/
theorem claim_C8_drain_all_then_first_error (net : Network)
    (pending : List (Nat × Tx)) (seq : ScriptSequence) :
    ((wait_for_receipts net pending seq).1 =
      match firstError (pending.map
        (fun p => (p.1, send_transaction net p.2 false))) with
      | some e => .error e
      | none => .ok ()) ∧
    (∀ p ∈ pending, Ev.submit p.1 ∈ (wait_for_receipts net pending seq).2.2) ∧
    (∀ p ∈ pending, ∀ r, net.broadcastTx p.2 = .ok r →
      Ev.awaitReceipt p.1 ∈ (wait_for_receipts net pending seq).2.2) := by
  refine ⟨wait_for_receipts_fst net pending seq, ?_, ?_⟩
  · intro p hp
    rw [wait_for_receipts_evs, joinAllEvs]
    exact List.mem_append_left _ (List.mem_append_left _
      (List.mem_map.mpr ⟨p, hp, rfl⟩))
  · intro p hp r hr
    rw [wait_for_receipts_evs, joinAllEvs]
    exact List.mem_append_left _ (List.mem_append_right _
      (List.mem_filterMap.mpr ⟨p, hp, by rw [hr]⟩))

/-- C8 witness: three collected tasks whose middle send fails: the run
fails with that first error while all three submits appear in the trace. -/
theorem claim_C8_drain_all_then_first_error_witness :
    ((wait_for_receipts
        { nextNonce := fun _ => .ok 0,
          broadcastTx := fun t =>
            if t.sender = 9 then .error "boom"
            else .ok (some (100 + t.nonce)) }
        [(0, txN7), (1, { sender := 9, nonce := 0 }), (2, txN5)]
        { transactions := [], receipts := [] }).1 =
      match firstError ([(0, txN7), (1, { sender := 9, nonce := 0 }),
          (2, txN5)].map (fun p => (p.1, send_transaction
            { nextNonce := fun _ => .ok 0,
              broadcastTx := fun t =>
                if t.sender = 9 then .error "boom"
                else .ok (some (100 + t.nonce)) } p.2 false))) with
      | some e => .error e
      | none => .ok ()) ∧
    (∀ p ∈ ([(0, txN7), (1, { sender := 9, nonce := 0 }), (2, txN5)] :
        List (Nat × Tx)),
      Ev.submit p.1 ∈ (wait_for_receipts
        { nextNonce := fun _ => .ok 0,
          broadcastTx := fun t =>
            if t.sender = 9 then .error "boom"
            else .ok (some (100 + t.nonce)) }
        [(0, txN7), (1, { sender := 9, nonce := 0 }), (2, txN5)]
        { transactions := [], receipts := [] }).2.2) ∧
    (∀ p ∈ ([(0, txN7), (1, { sender := 9, nonce := 0 }), (2, txN5)] :
        List (Nat × Tx)), ∀ r,
      ({ nextNonce := fun _ => .ok 0,
          broadcastTx := fun t =>
            if t.sender = 9 then .error "boom"
            else .ok (some (100 + t.nonce)) } : Network).broadcastTx p.2 =
          .ok r →
      Ev.awaitReceipt p.1 ∈ (wait_for_receipts
        { nextNonce := fun _ => .ok 0,
          broadcastTx := fun t =>
            if t.sender = 9 then .error "boom"
            else .ok (some (100 + t.nonce)) }
        [(0, txN7), (1, { sender := 9, nonce := 0 }), (2, txN5)]
        { transactions := [], receipts := [] }).2.2) :=
  claim_C8_drain_all_then_first_error
    { nextNonce := fun _ => .ok 0,
      broadcastTx := fun t =>
        if t.sender = 9 then .error "boom"
        else .ok (some (100 + t.nonce)) }
    [(0, txN7), (1, { sender := 9, nonce := 0 }), (2, txN5)]
    { transactions := [], receipts := [] }

/-- C10 witness: two artifacts with byte-identical runtime bytecode plus a
third distinct one: the registry keys are distinct and cover exactly the
two distinct bytecodes. -/
theorem claim_C10_keyed_by_bytecode_witness :
    ((LocalTraceIdentifier.new
      [(⟨"X"⟩, 7, [1, 2]), (⟨"Y"⟩, 8, [1, 2]), (⟨"Z"⟩, 9, [0])]).map
        Prod.fst).Nodup ∧
    ∀ k, (∃ v, (k, v) ∈ LocalTraceIdentifier.new
        [(⟨"X"⟩, 7, [1, 2]), (⟨"Y"⟩, 8, [1, 2]), (⟨"Z"⟩, 9, [0])]) ↔
      ∃ a ∈ ([(⟨"X"⟩, 7, [1, 2]), (⟨"Y"⟩, 8, [1, 2]), (⟨"Z"⟩, 9, [0])] :
        List (ArtifactId × Nat × List Nat)), a.2.2 = k :=
  claim_C10_keyed_by_bytecode
    [(⟨"X"⟩, 7, [1, 2]), (⟨"Y"⟩, 8, [1, 2]), (⟨"Z"⟩, 9, [0])]
